import Mathlib

/-!
Verification development for an extractive text-summarization pipeline.

The pipeline (orchestrated by `summarize`) cleans raw text, splits it into
sentences, builds a TF-IDF matrix over the sentences, scores each sentence by
the mean of its row, partitions sentences into `k` groups, selects one
representative per occupied group, and returns the representatives joined in
document order together with sentence counts and a compression ratio.

External collaborators (sentence boundary detection and word tokenization) are
modelled as function parameters.  Real-valued numeric code is embedded over `ℝ`
with exact `Real.log` / `Real.sqrt`; Python floats used in pure arithmetic
(`ratio`, rounding, truncation) are embedded over `ℚ`.
-/

/-- Python-style whitespace test for the characters `\s` matches in ASCII. -/
def isPySpace (c : Char) : Bool :=
  c == ' ' || c == '\t' || c == '\n' || c == '\r' || c == '\x0b' || c == '\x0c'

/-- Drop leading and trailing whitespace from a character list. -/
def stripChars (l : List Char) : List Char :=
  ((l.dropWhile isPySpace).reverse.dropWhile isPySpace).reverse

/-- Python `str.strip()`. -/
def pyStrip (s : String) : String := ⟨stripChars s.data⟩

/-- Replace every maximal whitespace run by a single space
(the effect of `re.sub(r"\s+", " ", text)`).  The boolean argument records
whether the previous character was part of a whitespace run. -/
def collapseWsAux : Bool → List Char → List Char
  | _, [] => []
  | prevWs, c :: cs =>
    if isPySpace c then
      if prevWs then collapseWsAux true cs
      else ' ' :: collapseWsAux true cs
    else c :: collapseWsAux false cs

/-- `clean_text` from `src/preprocess.py`: collapse whitespace runs and strip
leading/trailing spaces; the empty string is returned unchanged. -/
def clean_text (s : String) : String :=
  if s = "" then "" else pyStrip ⟨collapseWsAux false s.data⟩

/-- `split_sentences` from `src/preprocess.py`: the external Punkt sentence
tokenizer is the parameter `sentTok`; the repository code strips each fragment
and drops the blank ones. -/
def split_sentences (sentTok : String → List String) (text : String) : List String :=
  ((sentTok text).map pyStrip).filter (fun s => s != "")

/-- Python `int(...)` applied to a real number: truncation toward zero. -/
def pyInt (q : ℚ) : ℤ := if 0 ≤ q then ⌊q⌋ else ⌈q⌉

/-- Python `round(..., 0)`-style integer rounding: round half to even. -/
def roundHalfEven (q : ℚ) : ℤ :=
  if q - ⌊q⌋ < 1/2 then ⌊q⌋
  else if 1/2 < q - ⌊q⌋ then ⌊q⌋ + 1
  else if ⌊q⌋ % 2 = 0 then ⌊q⌋ else ⌊q⌋ + 1

/-- Python `round(x, 2)`: round to two decimal places. -/
def pyRound2 (q : ℚ) : ℚ := (roundHalfEven (q * 100) : ℚ) / 100

/-- The cluster-count derivation of `summarize` (`src/summarizer.py`, lines
62–63): `n_clusters = max(1, int(len(sentences) * ratio))` followed by
`n_clusters = min(n_clusters, len(sentences))`. -/
def derive_k (n : ℕ) (ratio : ℚ) : ℕ :=
  (min (max 1 (pyInt ((n : ℚ) * ratio))) (n : ℤ)).toNat

/-- The dictionary returned by `summarize`, as an explicit record. -/
structure SummaryResult where
  summary : String
  original_sentence_count : ℕ
  summary_sentence_count : ℕ
  compression_ratio : ℚ
deriving DecidableEq

/-- `_empty_result` from `src/summarizer.py`. -/
def empty_result : SummaryResult :=
  { summary := ""
    original_sentence_count := 0
    summary_sentence_count := 0
    compression_ratio := 0 }

/- ### TF-IDF feature extraction (`src/feature_extraction.py`)

`build_tfidf_matrix` delegates to sklearn's `TfidfVectorizer` with
`stop_words="english"`, `max_df=0.95`, `min_df=1`, `sublinear_tf=True` and the
defaults `smooth_idf=True`, `norm="l2"`.  The vectorizer's internal word
tokenization together with its stop-word removal is the parameter `tok`. -/

/-- Raw term frequency: occurrences of token `t` in sentence `d`. -/
def tf_raw (tok : String → List String) (d t : String) : ℕ := (tok d).count t

/-- Document frequency of term `t`: number of sentences whose count of `t` is
nonzero (sklearn derives it from the nonzero entries of the count matrix). -/
def docFreq (tok : String → List String) (sentences : List String) (t : String) : ℕ :=
  sentences.countP (fun d => decide (0 < tf_raw tok d t))

/-- The fitted vocabulary: all tokens occurring in some sentence, with terms
whose document frequency exceeds `0.95 * N` removed (`max_df=0.95`;
`min_df=1` keeps everything else). -/
def vocabulary (tok : String → List String) (sentences : List String) : List String :=
  ((sentences.map tok).flatten.dedup).filter
    (fun t => decide ((docFreq tok sentences t : ℚ) ≤ 95/100 * (sentences.length : ℚ)))

/-- Sub-linear term-frequency dampening (`sublinear_tf=True`):
`1 + log c` for a positive count `c`, and `0` for an absent term. -/
noncomputable def tfWeight (c : ℕ) : ℝ :=
  if c = 0 then 0 else 1 + Real.log c

/-- Smoothed inverse document frequency (`smooth_idf=True`, the sklearn
default): `log((1 + n) / (1 + df)) + 1`. -/
noncomputable def idfWeight (n df : ℕ) : ℝ :=
  Real.log ((1 + (n : ℝ)) / (1 + (df : ℝ))) + 1

/-- A matrix cell before row normalization: dampened tf times idf. -/
noncomputable def unnormalizedWeight (tok : String → List String)
    (sentences : List String) (d t : String) : ℝ :=
  tfWeight (tf_raw tok d t) * idfWeight sentences.length (docFreq tok sentences t)

/-- The unnormalized row of the TF-IDF matrix for sentence `d`. -/
noncomputable def rawRow (tok : String → List String)
    (sentences : List String) (d : String) : List ℝ :=
  (vocabulary tok sentences).map (unnormalizedWeight tok sentences d)

/-- Sum of squares of a row. -/
noncomputable def sumSq (row : List ℝ) : ℝ := (row.map (fun x => x ^ 2)).sum

/-- Euclidean (L2) norm of a row. -/
noncomputable def l2norm (row : List ℝ) : ℝ := Real.sqrt (sumSq row)

/-- L2 row normalization (`norm="l2"`): divide by the Euclidean norm; a row of
norm zero is left untouched (sklearn substitutes 1 for zero norms). -/
noncomputable def l2normalize (row : List ℝ) : List ℝ :=
  if l2norm row = 0 then row else row.map (fun x => x / l2norm row)

/-- `build_tfidf_matrix` from `src/feature_extraction.py`: one L2-normalized
TF-IDF row per input sentence. -/
noncomputable def build_tfidf_matrix (tok : String → List String)
    (sentences : List String) : List (List ℝ) :=
  sentences.map (fun d => l2normalize (rawRow tok sentences d))

/-- `get_sentence_scores` from `src/feature_extraction.py`:
`tfidf_matrix.mean(axis=1)`, the arithmetic mean of each row. -/
noncomputable def get_sentence_scores (M : List (List ℝ)) : List ℝ :=
  M.map (fun row => row.sum / (row.length : ℝ))

/- ### Clustering and selection (`src/clustering.py`, not among the sources) -/

/-- Score of sentence index `i` (0 outside the list). -/
def scoreAt (scores : List ℝ) (i : ℕ) : ℝ := scores.getD i 0

/-- Modelled from the spec: the per-group argmax step of
`select_representative_sentences` (`src/clustering.py` is missing from the
sources).  Spec §4.5: "choose the sentence with the maximum score among
members of that group; ties broken by earliest original position."  The member
list is in ascending position order, and the fold replaces the current best
only on a strictly larger score, so the earliest maximum wins. -/
noncomputable def bestIndex (scores : List ℝ) : List ℕ → Option ℕ
  | [] => none
  | i :: is => some (is.foldl (fun b j => if scoreAt scores b < scoreAt scores j then j else b) i)

/-- The member indices of group `g` among the `n` sentence positions. -/
def groupMembers (labels : List ℕ) (n g : ℕ) : List ℕ :=
  (List.range n).filter (fun i => labels.getD i 0 == g)

/-- Modelled from the spec: `select_representative_sentences` from
`src/clustering.py`, which is missing from the sources.  Spec §4.5: one
representative per occupied group (the group's highest-scoring member, earliest
position on ties); groups with zero members are simply absent; the chosen
sentences are sorted by original position ascending. -/
noncomputable def select_representative_sentences (sentences : List String)
    (labels : List ℕ) (scores : List ℝ) : List String :=
  let reps := labels.dedup.filterMap
    (fun g => bestIndex scores (groupMembers labels sentences.length g))
  let sorted := List.insertionSort (· ≤ ·) reps
  sorted.filterMap (fun i => sentences.get? i)

/-- Squared Euclidean distance between two rows (pointwise on shared length). -/
noncomputable def sqDist (u v : List ℝ) : ℝ :=
  ((u.zip v).map (fun p => (p.1 - p.2) ^ 2)).sum

/-- Index of the centroid nearest to `row`; ties broken toward the lowest
group index. -/
noncomputable def nearestCentroid (cents : List (List ℝ)) (row : List ℝ) : ℕ :=
  (List.range cents.length).foldl
    (fun b j => if sqDist (cents.getD j []) row < sqDist (cents.getD b []) row then j else b) 0

/-- Modelled from the spec: `cluster_sentences` from `src/clustering.py`, which
is missing from the sources.  Spec §4.4 requires a deterministic center-based
k-way partition with labels in `[0, k)` and distance ties broken toward the
lowest group index, without mandating a particular iterative refinement; we
model one deterministic nearest-centroid assignment with the first `k` rows as
centroids. -/
noncomputable def cluster_sentences (M : List (List ℝ)) (k : ℕ) : List ℕ :=
  M.map (nearestCentroid (M.take k))

/- ### Orchestrator (`src/summarizer.py`) -/

/-- Join sentence strings with single spaces (`" ".join(...)`). -/
def joinSpace (l : List String) : String := String.intercalate " " l

/-- The `summarize` pipeline with every collaborator injected: the sentence
splitter `split`, the Vectorizer `vect`, the Scorer `scorer`, the Grouper
`grouper` and the Selector `selector`.  Mirrors `src/summarizer.py` lines
46–80: empty guard, trivial regime for at most two sentences, and the normal
regime deriving `k`, extracting features, clustering and selecting. -/
noncomputable def summarizeCore (split : String → List String)
    (vect : List String → List (List ℝ))
    (scorer : List (List ℝ) → List ℝ)
    (grouper : List (List ℝ) → ℕ → List ℕ)
    (selector : List String → List ℕ → List ℝ → List String)
    (text : String) (ratio : ℚ) : SummaryResult :=
  if text = "" ∨ pyStrip text = "" then empty_result
  else
    let cleaned := clean_text text
    let sentences := split cleaned
    if sentences.length ≤ 2 then
      { summary := cleaned
        original_sentence_count := sentences.length
        summary_sentence_count := sentences.length
        compression_ratio := 1 }
    else
      let n_clusters := derive_k sentences.length ratio
      let M := vect sentences
      let scores := scorer M
      let labels := grouper M n_clusters
      let summary_sentences := selector sentences labels scores
      { summary := joinSpace summary_sentences
        original_sentence_count := sentences.length
        summary_sentence_count := summary_sentences.length
        compression_ratio :=
          pyRound2 ((summary_sentences.length : ℚ) / (sentences.length : ℚ)) }

/-- `summarize` from `src/summarizer.py`, with the two external collaborators
(`sentTok`: Punkt sentence tokenization; `tok`: word tokenization with
stop-word removal) as parameters and every repository component plugged in. -/
noncomputable def summarize (sentTok tok : String → List String)
    (text : String) (ratio : ℚ) : SummaryResult :=
  summarizeCore (split_sentences sentTok) (build_tfidf_matrix tok)
    get_sentence_scores cluster_sentences select_representative_sentences text ratio

/- ### Concrete instances used to exercise the theorems -/

/-- Accumulate maximal nonempty runs of non-space characters into words. -/
def wordsAux : List Char → List Char → List (List Char)
  | [], acc => if acc = [] then [] else [acc.reverse]
  | c :: cs, acc =>
    if c = ' ' then
      if acc = [] then wordsAux cs [] else acc.reverse :: wordsAux cs []
    else wordsAux cs (c :: acc)

/-- A concrete word tokenizer (split on spaces, drop empty pieces), standing
in for the external tokenization collaborator in concrete runs. -/
def tok0 (s : String) : List String := (wordsAux s.data []).map (fun l => ⟨l⟩)

/-- A concrete three-sentence corpus. -/
def sents0 : List String := ["alpha beta", "alpha gamma", "alpha delta"]

/- ### Helper lemmas -/

/-- The cluster count never drops below 1 and never exceeds the sentence
count. -/
theorem derive_k_bounds (n : ℕ) (ratio : ℚ) (hn : 1 ≤ n) :
    1 ≤ derive_k n ratio ∧ derive_k n ratio ≤ n := by
  unfold derive_k
  set x := pyInt ((n : ℚ) * ratio) with hx
  omega

/-- A ratio at or below zero is clamped to a single cluster. -/
theorem derive_k_of_nonpos (n : ℕ) (ratio : ℚ) (hn : 1 ≤ n) (hr : ratio ≤ 0) :
    derive_k n ratio = 1 := by
  have hq : (n : ℚ) * ratio ≤ 0 := by
    have h0 : (0 : ℚ) ≤ (n : ℚ) := by positivity
    nlinarith
  have hpy : pyInt ((n : ℚ) * ratio) ≤ 0 := by
    unfold pyInt
    split
    · exact Int.floor_nonpos hq
    · exact Int.ceil_le.mpr (by exact_mod_cast hq)
  unfold derive_k
  omega

/-- A ratio above one is clamped to one cluster per sentence. -/
theorem derive_k_of_gt_one (n : ℕ) (ratio : ℚ) (hn : 1 ≤ n) (hr : 1 < ratio) :
    derive_k n ratio = n := by
  have hq : (n : ℚ) < (n : ℚ) * ratio := by
    have h0 : (0 : ℚ) < (n : ℚ) := by exact_mod_cast hn
    nlinarith
  have hq' : (0 : ℚ) ≤ (n : ℚ) * ratio := le_of_lt (lt_of_le_of_lt (by positivity) hq)
  have hpy : (n : ℤ) ≤ pyInt ((n : ℚ) * ratio) := by
    unfold pyInt
    rw [if_pos hq']
    exact Int.le_floor.mpr (le_of_lt (by exact_mod_cast hq))
  unfold derive_k
  omega

/-- The argmax fold always returns one of the candidate indices. -/
theorem foldl_best_mem (scores : List ℝ) :
    ∀ (is : List ℕ) (i : ℕ),
      is.foldl (fun b j => if scoreAt scores b < scoreAt scores j then j else b) i ∈ i :: is := by
  intro is
  induction is with
  | nil => intro i; simp
  | cons j js ih =>
    intro i
    rw [List.foldl_cons]
    rcases List.mem_cons.mp (ih (if scoreAt scores i < scoreAt scores j then j else i)) with h | h
    · rw [h]
      split
      · exact List.mem_cons_of_mem _ (List.mem_cons_self _ _)
      · exact List.mem_cons_self _ _
    · exact List.mem_cons_of_mem _ (List.mem_cons_of_mem _ h)

/-- `bestIndex` only returns members of its candidate list. -/
theorem bestIndex_mem {scores : List ℝ} {l : List ℕ} {i : ℕ}
    (h : bestIndex scores l = some i) : i ∈ l := by
  match l with
  | [] => simp [bestIndex] at h
  | a :: is =>
    simp only [bestIndex, Option.some.injEq] at h
    have := foldl_best_mem scores is a
    rwa [h] at this

/-- Membership in a group's member list. -/
theorem groupMembers_mem {labels : List ℕ} {n g i : ℕ} :
    i ∈ groupMembers labels n g ↔ i < n ∧ labels.getD i 0 = g := by
  simp [groupMembers, List.mem_filter, List.mem_range]

/-- The chosen representative indices are pairwise distinct: distinct groups
have disjoint member lists. -/
theorem reps_nodup (labels : List ℕ) (scores : List ℝ) (n : ℕ) :
    (labels.dedup.filterMap
      (fun g => bestIndex scores (groupMembers labels n g))).Nodup := by
  refine List.Nodup.filterMap ?_ labels.nodup_dedup
  intro g g' i hi hi'
  have h1 := groupMembers_mem.mp (bestIndex_mem (Option.mem_def.mp hi))
  have h2 := groupMembers_mem.mp (bestIndex_mem (Option.mem_def.mp hi'))
  omega

/-- Every chosen representative index is a valid sentence position. -/
theorem reps_lt (labels : List ℕ) (scores : List ℝ) (n : ℕ) :
    ∀ i ∈ labels.dedup.filterMap
      (fun g => bestIndex scores (groupMembers labels n g)), i < n := by
  intro i hi
  rcases List.mem_filterMap.mp hi with ⟨g, _, hg⟩
  exact (groupMembers_mem.mp (bestIndex_mem hg)).1

/-- A list of naturals sorted weakly and without duplicates is sorted
strictly. -/
theorem sorted_lt_of_sorted_le_nodup {l : List ℕ}
    (hs : l.Sorted (· ≤ ·)) (hn : l.Nodup) : l.Sorted (· < ·) := by
  have := List.Pairwise.and hs hn
  exact this.imp (fun h => lt_of_le_of_ne h.1 h.2)

/-- Shifting indices past a cons cell: looking up indices that are all at
least 1 in `a :: l` is looking up their predecessors in `l`. -/
theorem filterMap_getq_cons {α : Type} (a : α) (l : List α) (is : List ℕ)
    (h : ∀ j ∈ is, 1 ≤ j) :
    (is.filterMap fun j => (a :: l).get? j) =
      ((is.map fun j => j - 1).filterMap fun j => l.get? j) := by
  rw [List.filterMap_map]
  apply List.filterMap_congr
  intro j hj
  match j, h j hj with
  | (k + 1), _ => simp

/-- Strict sortedness survives subtracting one from indices that are all at
least 1. -/
theorem sorted_lt_map_pred {is : List ℕ} (hs : is.Sorted (· < ·))
    (h1 : ∀ j ∈ is, 1 ≤ j) : (is.map fun j => j - 1).Sorted (· < ·) := by
  rw [List.Sorted, List.pairwise_map]
  refine List.Pairwise.imp_of_mem ?_ hs
  intro a b ha _ hab
  have := h1 a ha
  omega

/-- Looking up a strictly increasing index list in a list yields a sublist. -/
theorem sublist_filterMap_getq {α : Type} :
    ∀ (l : List α) (idxs : List ℕ), idxs.Sorted (· < ·) →
      (idxs.filterMap fun i => l.get? i).Sublist l
  | [], idxs, _ => by simp
  | a :: l, [], _ => by simp
  | a :: l, i :: is, hs => by
    have hrest := (List.sorted_cons.mp hs).1
    have hs' : is.Sorted (· < ·) := (List.sorted_cons.mp hs).2
    by_cases hi : i = 0
    · subst hi
      have h1 : ∀ j ∈ is, 1 ≤ j := fun j hj => hrest j hj
      have hhead : ((0 : ℕ) :: is).filterMap (fun j => (a :: l).get? j) =
          a :: is.filterMap (fun j => (a :: l).get? j) := by
        simp [List.filterMap_cons]
      rw [hhead, filterMap_getq_cons a l is h1]
      exact (sublist_filterMap_getq l _ (sorted_lt_map_pred hs' h1)).cons₂ a
    · have h1 : ∀ j ∈ i :: is, 1 ≤ j := by
        intro j hj
        rcases List.mem_cons.mp hj with rfl | hj
        · omega
        · have := hrest j hj; omega
      rw [filterMap_getq_cons a l (i :: is) h1]
      exact (sublist_filterMap_getq l _ (sorted_lt_map_pred hs h1)).cons a

/-- The Selector's output is a subsequence of its input sentences: a subset by
value and original position, listed in strictly increasing position order. -/
theorem select_representative_sentences_sublist (sentences : List String)
    (labels : List ℕ) (scores : List ℝ) :
    (select_representative_sentences sentences labels scores).Sublist sentences := by
  unfold select_representative_sentences
  apply sublist_filterMap_getq
  apply sorted_lt_of_sorted_le_nodup
  · exact List.sorted_insertionSort _ _
  · exact ((List.perm_insertionSort _ _).nodup_iff).mpr
      (reps_nodup labels scores sentences.length)

/-- The Selector never returns more sentences than it was given. -/
theorem select_representative_sentences_length_le (sentences : List String)
    (labels : List ℕ) (scores : List ℝ) :
    (select_representative_sentences sentences labels scores).length ≤ sentences.length :=
  (select_representative_sentences_sublist sentences labels scores).length_le

/- ### Claim theorems -/

/-- C1 (counterexample): the cluster count used by `summarize` at 3 sentences
and ratio 3/5 is `max(1, int(3 * 0.6)) = 1` by Python truncation, not the
claimed `clamp(round(3 * 0.6), 1, 3) = 2`. -/
theorem derive_k_round_counterexample :
    derive_k 3 (3/5) = 1 ∧
      derive_k 3 (3/5) ≠ (min (max 1 (round ((3 : ℚ) * (3/5)))) (3 : ℤ)).toNat := by
  have hcast : ((3 : ℕ) : ℚ) * (3/5) = 9/5 := by norm_num
  have hfl : pyInt (9/5 : ℚ) = 1 := by
    rw [pyInt, if_pos (by norm_num)]
    norm_num
  have hval : derive_k 3 (3/5) = 1 := by
    unfold derive_k
    rw [hcast, hfl]
    decide
  have hround : (min (max 1 (round ((3 : ℚ) * (3/5)))) (3 : ℤ)).toNat = 2 := by
    have h2 : round ((3 : ℚ) * (3/5)) = 2 := by
      rw [round_eq]
      norm_num
    rw [h2]
    decide
  refine ⟨hval, ?_⟩
  rw [hval, hround]
  decide

/-- C1 (amended): the group count `k` used by `summarize` equals
`clamp(int(N * ratio), 1, N)` where `int` is Python truncation toward zero;
in particular `1 ≤ k ≤ N`. -/
theorem derive_k_spec (n : ℕ) (ratio : ℚ) (h : 3 ≤ n) :
    derive_k n ratio = (min (max 1 (pyInt ((n : ℚ) * ratio))) (n : ℤ)).toNat ∧
      1 ≤ derive_k n ratio ∧ derive_k n ratio ≤ n := by
  refine ⟨rfl, ?_⟩
  exact derive_k_bounds n ratio (by omega)

/-- C1 witness: the amended statement at `N = 5`, `ratio = 2/5`. -/
theorem derive_k_spec_witness :
    derive_k 5 (2/5) = (min (max 1 (pyInt ((5 : ℚ) * (2/5)))) (5 : ℤ)).toNat ∧
      1 ≤ derive_k 5 (2/5) ∧ derive_k 5 (2/5) ≤ 5 :=
  derive_k_spec 5 (2/5) (by decide)

/-- C3: a non-empty, non-whitespace input whose cleaned form splits into at
most two sentences is returned verbatim (the cleaned text) with equal sentence
counts and compression ratio exactly 1. -/
theorem summarize_trivial_regime (sentTok tok : String → List String)
    (text : String) (ratio : ℚ)
    (h1 : pyStrip text ≠ "")
    (h2 : (split_sentences sentTok (clean_text text)).length ≤ 2) :
    summarize sentTok tok text ratio =
      { summary := clean_text text
        original_sentence_count := (split_sentences sentTok (clean_text text)).length
        summary_sentence_count := (split_sentences sentTok (clean_text text)).length
        compression_ratio := 1 } := by
  have htext : ¬(text = "" ∨ pyStrip text = "") := by
    rintro (rfl | h)
    · exact h1 rfl
    · exact h1 h
  unfold summarize summarizeCore
  rw [if_neg htext, if_pos h2]

/-- C3 witness: a two-sentence input under a concrete splitter. -/
theorem summarize_trivial_regime_witness :
    summarize (fun _ => ["One sentence.", "Two sentences."]) tok0
        "One sentence. Two sentences." (3/10) =
      { summary := clean_text "One sentence. Two sentences."
        original_sentence_count := (split_sentences
          (fun _ => ["One sentence.", "Two sentences."])
          (clean_text "One sentence. Two sentences.")).length
        summary_sentence_count := (split_sentences
          (fun _ => ["One sentence.", "Two sentences."])
          (clean_text "One sentence. Two sentences.")).length
        compression_ratio := 1 } :=
  summarize_trivial_regime _ tok0 _ (3/10) (by decide) (by decide)

/-- C4: empty or all-whitespace input yields the zero-valued result, whatever
the Vectorizer, Scorer, Grouper and Selector are — none of them can influence
the outcome, which models that none of them is invoked. -/
theorem summarizeCore_empty_regime (split : String → List String)
    (vect : List String → List (List ℝ))
    (scorer : List (List ℝ) → List ℝ)
    (grouper : List (List ℝ) → ℕ → List ℕ)
    (selector : List String → List ℕ → List ℝ → List String)
    (text : String) (ratio : ℚ)
    (h : pyStrip text = "") :
    summarizeCore split vect scorer grouper selector text ratio = empty_result := by
  unfold summarizeCore
  rw [if_pos (Or.inr h)]

/-- C4 witness: two spaces of input, with arbitrary concrete components. -/
theorem summarizeCore_empty_regime_witness :
    summarizeCore (fun _ => []) (fun _ => []) (fun _ => []) (fun _ _ => [])
        (fun _ _ _ => []) "  " (3/10) = empty_result :=
  summarizeCore_empty_regime _ _ _ _ _ "  " (3/10) (by decide)

/-- C9: `summarize` is a pure function of the pair (text, ratio): two calls on
identical inputs (with the same external collaborators) return identical
results; the embedding exhibits no other input, hence no hidden randomness. -/
theorem summarize_deterministic (sentTok tok : String → List String)
    (text₁ text₂ : String) (ratio₁ ratio₂ : ℚ)
    (ht : text₁ = text₂) (hr : ratio₁ = ratio₂) :
    summarize sentTok tok text₁ ratio₁ = summarize sentTok tok text₂ ratio₂ := by
  rw [ht, hr]

/-- C9 witness: the two calls agree on a concrete input. -/
theorem summarize_deterministic_witness :
    summarize (fun s => [s]) tok0 "alpha beta." (3/10) =
      summarize (fun s => [s]) tok0 "alpha beta." (3/10) :=
  summarize_deterministic (fun s => [s]) tok0 _ _ _ _ rfl rfl

/-- C10: a non-empty, non-whitespace input whose sentence split is empty falls
into the trivial regime: it returns the cleaned text with zero counts and
compression ratio 1 (not the empty-regime result with ratio 0). -/
theorem summarize_zero_split_regime (sentTok tok : String → List String)
    (text : String) (ratio : ℚ)
    (h1 : pyStrip text ≠ "")
    (h2 : split_sentences sentTok (clean_text text) = []) :
    summarize sentTok tok text ratio =
      { summary := clean_text text
        original_sentence_count := 0
        summary_sentence_count := 0
        compression_ratio := 1 } := by
  have htext : ¬(text = "" ∨ pyStrip text = "") := by
    rintro (rfl | h)
    · exact h1 rfl
    · exact h1 h
  simp only [summarize, summarizeCore]
  rw [if_neg htext, h2]
  simp

/-- C10 witness: a sentence tokenizer returning only blank fragments. -/
theorem summarize_zero_split_regime_witness :
    summarize (fun _ => [" ", ""]) tok0 "punctuation only" (3/10) =
      { summary := clean_text "punctuation only"
        original_sentence_count := 0
        summary_sentence_count := 0
        compression_ratio := 1 } :=
  summarize_zero_split_regime _ tok0 _ (3/10) (by decide) (by decide)

/-- C7: an out-of-range ratio never breaks the pipeline: the derived group
count is clamped to 1 when `ratio ≤ 0` and to `N` when `ratio > 1`, and the
returned result is still well-formed (original count is `N`, summary count is
at most `N`). -/
theorem summarize_ratio_clamped (sentTok tok : String → List String)
    (text : String) (ratio : ℚ)
    (h1 : pyStrip text ≠ "")
    (h2 : 3 ≤ (split_sentences sentTok (clean_text text)).length) :
    (ratio ≤ 0 → derive_k (split_sentences sentTok (clean_text text)).length ratio = 1) ∧
    (1 < ratio → derive_k (split_sentences sentTok (clean_text text)).length ratio =
      (split_sentences sentTok (clean_text text)).length) ∧
    (summarize sentTok tok text ratio).original_sentence_count =
      (split_sentences sentTok (clean_text text)).length ∧
    (summarize sentTok tok text ratio).summary_sentence_count ≤
      (split_sentences sentTok (clean_text text)).length := by
  have htext : ¬(text = "" ∨ pyStrip text = "") := by
    rintro (rfl | h)
    · exact h1 rfl
    · exact h1 h
  have hnot : ¬((split_sentences sentTok (clean_text text)).length ≤ 2) := by omega
  refine ⟨fun hr => derive_k_of_nonpos _ _ (by omega) hr,
    fun hr => derive_k_of_gt_one _ _ (by omega) hr, ?_, ?_⟩
  · simp only [summarize, summarizeCore]
    rw [if_neg htext, if_neg hnot]
  · simp only [summarize, summarizeCore]
    rw [if_neg htext, if_neg hnot]
    exact select_representative_sentences_length_le _ _ _

/-- C7 witness: a three-sentence input with the invalid ratio 2. -/
theorem summarize_ratio_clamped_witness :
    ((2 : ℚ) ≤ 0 → derive_k (split_sentences (fun _ => ["a.", "b.", "c."])
      (clean_text "a. b. c.")).length 2 = 1) ∧
    (1 < (2 : ℚ) → derive_k (split_sentences (fun _ => ["a.", "b.", "c."])
      (clean_text "a. b. c.")).length 2 =
      (split_sentences (fun _ => ["a.", "b.", "c."]) (clean_text "a. b. c.")).length) ∧
    (summarize (fun _ => ["a.", "b.", "c."]) tok0 "a. b. c." 2).original_sentence_count =
      (split_sentences (fun _ => ["a.", "b.", "c."]) (clean_text "a. b. c.")).length ∧
    (summarize (fun _ => ["a.", "b.", "c."]) tok0 "a. b. c." 2).summary_sentence_count ≤
      (split_sentences (fun _ => ["a.", "b.", "c."]) (clean_text "a. b. c.")).length :=
  summarize_ratio_clamped _ tok0 _ 2 (by decide) (by decide)

/-- C8: whatever the group labels and scores, the Selector's output is a
subsequence of the input sentences (same values at strictly increasing
original positions) with at most `N` elements. -/
theorem selector_output_subsequence (sentences : List String)
    (labels : List ℕ) (scores : List ℝ)
    (h : 3 ≤ sentences.length) :
    (select_representative_sentences sentences labels scores).Sublist sentences ∧
    (select_representative_sentences sentences labels scores).length ≤ sentences.length :=
  ⟨select_representative_sentences_sublist sentences labels scores,
    select_representative_sentences_length_le sentences labels scores⟩

/-- C8 witness: three sentences with concrete labels and scores. -/
theorem selector_output_subsequence_witness :
    (select_representative_sentences ["a", "b", "c"] [0, 1, 0] [1, 2, 3]).Sublist
      ["a", "b", "c"] ∧
    (select_representative_sentences ["a", "b", "c"] [0, 1, 0] [1, 2, 3]).length ≤
      (["a", "b", "c"] : List String).length :=
  selector_output_subsequence ["a", "b", "c"] [0, 1, 0] [1, 2, 3] (by decide)

/-- Sum-of-squares of the empty row. -/
theorem sumSq_nil : sumSq ([] : List ℝ) = 0 := by
  simp [sumSq]

/-- Sum-of-squares unfolds over cons. -/
theorem sumSq_cons (a : ℝ) (t : List ℝ) : sumSq (a :: t) = a ^ 2 + sumSq t := by
  simp [sumSq]

/-- A sum of squares is non-negative. -/
theorem sumSq_nonneg (row : List ℝ) : 0 ≤ sumSq row := by
  apply List.sum_nonneg
  intro x hx
  rcases List.mem_map.mp hx with ⟨y, -, rfl⟩
  positivity

/-- A row whose sum of squares vanishes is the zero vector. -/
theorem eq_zero_of_sumSq_eq_zero {row : List ℝ} (h : sumSq row = 0) :
    ∀ x ∈ row, x = 0 := by
  induction row with
  | nil => simp
  | cons a t ih =>
    rw [sumSq_cons] at h
    have h1 : 0 ≤ a ^ 2 := sq_nonneg a
    have h2 : 0 ≤ sumSq t := sumSq_nonneg t
    have ha : a ^ 2 = 0 := by linarith
    have ht : sumSq t = 0 := by linarith
    intro x hx
    rcases List.mem_cons.mp hx with rfl | hx
    · exact pow_eq_zero_iff (two_ne_zero) |>.mp ha
    · exact ih ht x hx

/-- The L2 norm vanishes exactly when the sum of squares does. -/
theorem l2norm_eq_zero_iff (row : List ℝ) : l2norm row = 0 ↔ sumSq row = 0 := by
  unfold l2norm
  exact Real.sqrt_eq_zero (sumSq_nonneg row)

/-- Dividing every entry by `c` divides the sum of squares by `c ^ 2`. -/
theorem sumSq_map_div (row : List ℝ) (c : ℝ) :
    sumSq (row.map (fun x => x / c)) = sumSq row / c ^ 2 := by
  induction row with
  | nil => simp [sumSq]
  | cons a t ih =>
    rw [List.map_cons, sumSq_cons, sumSq_cons, ih, div_pow, div_add_div_same]

/-- Normalizing a row of nonzero norm produces a row of norm exactly 1. -/
theorem l2norm_l2normalize (row : List ℝ) (h : l2norm row ≠ 0) :
    l2norm (l2normalize row) = 1 := by
  have hsq : sumSq row ≠ 0 := fun hz => h ((l2norm_eq_zero_iff row).mpr hz)
  have hpos : 0 < sumSq row := lt_of_le_of_ne (sumSq_nonneg row) (Ne.symm hsq)
  unfold l2normalize
  rw [if_neg h]
  unfold l2norm
  rw [sumSq_map_div, Real.sq_sqrt (le_of_lt hpos), div_self hsq, Real.sqrt_one]

/-- C5: every row of the Weighted Matrix has L2 norm exactly 1, or is the zero
vector (the unnormalized row was all-zero and was left unchanged). -/
theorem tfidf_row_unit_norm_or_zero (tok : String → List String)
    (sentences : List String) (row : List ℝ)
    (hne : sentences ≠ [])
    (hrow : row ∈ build_tfidf_matrix tok sentences) :
    l2norm row = 1 ∨ ∀ x ∈ row, x = 0 := by
  rcases List.mem_map.mp hrow with ⟨d, -, rfl⟩
  by_cases hz : l2norm (rawRow tok sentences d) = 0
  · right
    have hfix : l2normalize (rawRow tok sentences d) = rawRow tok sentences d := by
      unfold l2normalize
      rw [if_pos hz]
    rw [hfix]
    exact eq_zero_of_sumSq_eq_zero ((l2norm_eq_zero_iff _).mp hz)
  · left
    exact l2norm_l2normalize _ hz

/-- C5 witness: the first row of the matrix over the concrete corpus. -/
theorem tfidf_row_unit_norm_or_zero_witness :
    l2norm (l2normalize (rawRow tok0 sents0 "alpha beta")) = 1 ∨
      ∀ x ∈ l2normalize (rawRow tok0 sents0 "alpha beta"), x = 0 :=
  tfidf_row_unit_norm_or_zero tok0 sents0 _ (by decide)
    (List.mem_map_of_mem _ (by decide))

/-- Every cell weight before normalization is non-negative: the dampened tf is
non-negative and the smoothed idf is at least 1. -/
theorem unnormalizedWeight_nonneg (tok : String → List String)
    (sentences : List String) (d t : String) :
    0 ≤ unnormalizedWeight tok sentences d t := by
  unfold unnormalizedWeight
  apply mul_nonneg
  · unfold tfWeight
    split
    · exact le_refl 0
    · have h1 : (1 : ℝ) ≤ (tf_raw tok d t : ℝ) := by
        exact_mod_cast Nat.one_le_iff_ne_zero.mpr (by assumption)
      have h2 := Real.log_nonneg h1
      linarith
  · unfold idfWeight
    have hdf : docFreq tok sentences t ≤ sentences.length := List.countP_le_length _
    have h1 : (1 : ℝ) ≤ (1 + (sentences.length : ℝ)) / (1 + (docFreq tok sentences t : ℝ)) := by
      rw [le_div_iff (by positivity)]
      have : (docFreq tok sentences t : ℝ) ≤ (sentences.length : ℝ) := by exact_mod_cast hdf
      linarith
    have h2 := Real.log_nonneg h1
    linarith

/-- Normalization preserves non-negativity of row entries. -/
theorem l2normalize_nonneg {row : List ℝ} (h : ∀ x ∈ row, 0 ≤ x) :
    ∀ x ∈ l2normalize row, 0 ≤ x := by
  unfold l2normalize
  split
  · exact h
  · intro x hx
    rcases List.mem_map.mp hx with ⟨y, hy, rfl⟩
    exact div_nonneg (h y hy) (Real.sqrt_nonneg _)

/-- Normalization preserves the row length. -/
theorem l2normalize_length (row : List ℝ) : (l2normalize row).length = row.length := by
  unfold l2normalize
  split
  · rfl
  · simp

/-- An unnormalized row has one cell per vocabulary term. -/
theorem rawRow_length (tok : String → List String) (sentences : List String)
    (d : String) : (rawRow tok sentences d).length = (vocabulary tok sentences).length := by
  simp [rawRow]

/-- Every entry of a Weighted Matrix row is non-negative. -/
theorem tfidf_entry_nonneg (tok : String → List String) (sentences : List String)
    (d : String) : ∀ x ∈ l2normalize (rawRow tok sentences d), 0 ≤ x := by
  apply l2normalize_nonneg
  intro x hx
  rcases List.mem_map.mp hx with ⟨t, -, rfl⟩
  exact unnormalizedWeight_nonneg tok sentences d t

/-- `getD` commutes with `map` at an in-range index, for any defaults. -/
theorem getD_map_of_lt {α β : Type} (f : α → β) (l : List α) (i : ℕ)
    (hi : i < l.length) (d : β) (e : α) : (l.map f).getD i d = f (l.getD i e) := by
  induction l generalizing i with
  | nil => simp at hi
  | cons a t ih =>
    cases i with
    | zero => simp [List.getD]
    | succ n =>
      simp only [List.map_cons, List.getD_cons_succ]
      exact ih n (by simpa using hi)

/-- C6: the Scorer returns one score per matrix row; each score is the row sum
divided by the vocabulary size (the arithmetic mean over all vocabulary
columns, zero cells included); an all-zero row scores exactly 0; and every
score is non-negative. -/
theorem sentence_scores_mean (tok : String → List String) (sentences : List String)
    (i : ℕ) (hi : i < sentences.length) :
    (get_sentence_scores (build_tfidf_matrix tok sentences)).length = sentences.length ∧
    (get_sentence_scores (build_tfidf_matrix tok sentences)).getD i 0 =
      ((build_tfidf_matrix tok sentences).getD i []).sum /
        ((vocabulary tok sentences).length : ℝ) ∧
    ((∀ x ∈ (build_tfidf_matrix tok sentences).getD i [], x = (0 : ℝ)) →
      (get_sentence_scores (build_tfidf_matrix tok sentences)).getD i 0 = 0) ∧
    0 ≤ (get_sentence_scores (build_tfidf_matrix tok sentences)).getD i 0 := by
  have hMlen : (build_tfidf_matrix tok sentences).length = sentences.length := by
    simp [build_tfidf_matrix]
  have hiM : i < (build_tfidf_matrix tok sentences).length := by omega
  have hscore : (get_sentence_scores (build_tfidf_matrix tok sentences)).getD i 0 =
      ((build_tfidf_matrix tok sentences).getD i []).sum /
        (((build_tfidf_matrix tok sentences).getD i []).length : ℝ) := by
    unfold get_sentence_scores
    exact getD_map_of_lt _ _ i hiM 0 []
  have hrowD : (build_tfidf_matrix tok sentences).getD i [] =
      l2normalize (rawRow tok sentences (sentences.getD i "")) := by
    unfold build_tfidf_matrix
    exact getD_map_of_lt _ _ i hi [] ""
  have hrowlen : ((build_tfidf_matrix tok sentences).getD i []).length =
      (vocabulary tok sentences).length := by
    rw [hrowD, l2normalize_length, rawRow_length]
  refine ⟨by simp [get_sentence_scores, build_tfidf_matrix], ?_, ?_, ?_⟩
  · rw [hscore, hrowlen]
  · intro hz
    rw [hscore, List.sum_eq_zero hz, zero_div]
  · rw [hscore]
    apply div_nonneg
    · apply List.sum_nonneg
      intro x hx
      rw [hrowD] at hx
      exact tfidf_entry_nonneg tok sentences _ x hx
    · positivity

/-- C6 witness: the first row of the concrete corpus. -/
theorem sentence_scores_mean_witness :
    (get_sentence_scores (build_tfidf_matrix tok0 sents0)).length = sents0.length ∧
    (get_sentence_scores (build_tfidf_matrix tok0 sents0)).getD 0 0 =
      ((build_tfidf_matrix tok0 sents0).getD 0 []).sum /
        ((vocabulary tok0 sents0).length : ℝ) ∧
    ((∀ x ∈ (build_tfidf_matrix tok0 sents0).getD 0 [], x = (0 : ℝ)) →
      (get_sentence_scores (build_tfidf_matrix tok0 sents0)).getD 0 0 = 0) ∧
    0 ≤ (get_sentence_scores (build_tfidf_matrix tok0 sents0)).getD 0 0 :=
  sentence_scores_mean tok0 sents0 0 (by decide)

/-- Document frequency by nonzero counts equals document frequency by
membership. -/
theorem docFreq_eq_countP_mem (tok : String → List String)
    (sentences : List String) (t : String) :
    docFreq tok sentences t = sentences.countP (fun s => decide (t ∈ tok s)) := by
  unfold docFreq
  apply List.countP_congr
  intro s _
  simp [tf_raw, List.count_pos_iff]

/-- C2 (amended): each matrix cell before row normalization is
`tf(t,d) * idf(t)` with `tf(t,d) = 1 + log(tf_raw)` for positive raw counts
and 0 otherwise, and with the smoothed inverse document frequency
`idf(t) = ln((1 + N) / (1 + df(t))) + 1`, where `df(t)` is the number of
sentences containing `t`. -/
theorem tfidf_cell_formula (tok : String → List String)
    (sentences : List String) (d t : String) :
    rawRow tok sentences d = (vocabulary tok sentences).map (unnormalizedWeight tok sentences d) ∧
    unnormalizedWeight tok sentences d t =
      (if 0 < tf_raw tok d t then 1 + Real.log (tf_raw tok d t) else 0) *
        (Real.log ((1 + (sentences.length : ℝ)) /
          (1 + (sentences.countP (fun s => decide (t ∈ tok s)) : ℝ))) + 1) := by
  refine ⟨rfl, ?_⟩
  have htf : (if tf_raw tok d t = 0 then (0 : ℝ) else 1 + Real.log (tf_raw tok d t)) =
      (if 0 < tf_raw tok d t then 1 + Real.log (tf_raw tok d t) else 0) := by
    by_cases hc : tf_raw tok d t = 0
    · simp [hc]
    · have hpos : 0 < tf_raw tok d t := Nat.pos_of_ne_zero hc
      simp [hc, hpos]
  rw [unnormalizedWeight, tfWeight, idfWeight, docFreq_eq_countP_mem, htf]

/-- C2 (counterexample): on the concrete three-sentence corpus, the cell for
term "beta" in the first sentence does not match the spec's idf formula
`ln(N / (1 + df)) + 1`: the code's smoothed idf uses `N + 1` in the
numerator, so the value is `ln 2 + 1`, not `ln(3/2) + 1`. -/
theorem tfidf_idf_counterexample :
    "beta" ∈ vocabulary tok0 sents0 ∧
    unnormalizedWeight tok0 sents0 "alpha beta" "beta" ≠
      (if 0 < tf_raw tok0 "alpha beta" "beta" then
          1 + Real.log (tf_raw tok0 "alpha beta" "beta") else 0) *
        (Real.log ((sents0.length : ℝ) /
          (1 + (sents0.countP (fun s => decide ("beta" ∈ tok0 s)) : ℝ))) + 1) := by
  constructor
  · rw [vocabulary, List.mem_filter]
    refine ⟨by decide, ?_⟩
    rw [show docFreq tok0 sents0 "beta" = 1 by decide]
    rw [show sents0.length = 3 by decide]
    simp only [decide_eq_true_eq]
    norm_num
  · have h1 : tf_raw tok0 "alpha beta" "beta" = 1 := by decide
    have h2 : docFreq tok0 sents0 "beta" = 1 := by decide
    have h3 : sents0.countP (fun s => decide ("beta" ∈ tok0 s)) = 1 := by decide
    have h4 : sents0.length = 3 := by decide
    rw [unnormalizedWeight, tfWeight, idfWeight, h1, h2, h3, h4]
    have hlt : Real.log (3 / 2) < Real.log 2 := by
      apply Real.log_lt_log
      · norm_num
      · norm_num
    norm_num [Real.log_one]
    intro heq
    linarith
